import Mathlib

namespace Rippled

/-! ## Byte-level serialization

Modelled from the spec: the `Serializer` / `SerialIter` classes are not in
the provided sources; the spec fixes the ledger header on-wire format as
fixed-size fields, "in order and big-endian where numeric".
-/

/-- Modelled from the spec: big-endian encoding of `n % 256^w` into exactly
`w` bytes, most significant first (the missing `Serializer::addNN`). -/
def serBE : Nat → Nat → List Nat
  | 0, _ => []
  | w + 1, n => (n / 256 ^ w) % 256 :: serBE w n

/-- `Serializer::add8`. -/
def ser8 (n : Nat) : List Nat := serBE 1 n

/-- `Serializer::add32` (big-endian). -/
def ser32 (n : Nat) : List Nat := serBE 4 n

/-- `Serializer::add64` (big-endian). -/
def ser64 (n : Nat) : List Nat := serBE 8 n

/-- `Serializer::add256`: 32 raw bytes of a 256-bit value. -/
def ser256 (n : Nat) : List Nat := serBE 32 n

/-- Modelled from the spec: `SerialIter` reads exactly `w` bytes from the
front of the stream, failing when the stream is too short. -/
def getBytes (w : Nat) (b : List Nat) : Option (List Nat × List Nat) :=
  if w ≤ b.length then some (b.take w, b.drop w) else none

/-- Assemble a big-endian chunk into a number. -/
def decodeBE (chunk : List Nat) : Nat :=
  chunk.foldl (fun acc b => acc * 256 + b) 0

/-- `SerialIter::get8`. -/
def get8 (b : List Nat) : Option (Nat × List Nat) :=
  (getBytes 1 b).map fun p => (decodeBE p.1, p.2)

/-- `SerialIter::get32`. -/
def get32 (b : List Nat) : Option (Nat × List Nat) :=
  (getBytes 4 b).map fun p => (decodeBE p.1, p.2)

/-- `SerialIter::get64`. -/
def get64 (b : List Nat) : Option (Nat × List Nat) :=
  (getBytes 8 b).map fun p => (decodeBE p.1, p.2)

/-- `SerialIter::get256`. -/
def get256 (b : List Nat) : Option (Nat × List Nat) :=
  (getBytes 32 b).map fun p => (decodeBE p.1, p.2)

/-! ## Ledger header

`Ledger.cpp` keeps the nine header fields (`info_.seq`, `mTotCoins`,
`mParentHash`, `mTransHash`, `mAccountHash`, `info_.parentCloseTime`,
`info_.closeTime`, `mCloseResolution`, `mCloseFlags`). Hash256 values are
embedded as `Nat` below `2^256`. -/

structure LedgerHeader where
  seq : Nat
  totCoins : Nat
  parentHash : Nat
  transHash : Nat
  accountHash : Nat
  parentCloseTime : Nat
  closeTime : Nat
  closeResolution : Nat
  closeFlags : Nat
deriving DecidableEq, Repr

/-- Field bounds matching the C++ storage types
(u32/u64/uint256/u32/u32/u8/u8). -/
def LedgerHeader.wf (L : LedgerHeader) : Prop :=
  L.seq < 2 ^ 32 ∧ L.totCoins < 2 ^ 64 ∧ L.parentHash < 2 ^ 256 ∧
  L.transHash < 2 ^ 256 ∧ L.accountHash < 2 ^ 256 ∧
  L.parentCloseTime < 2 ^ 32 ∧ L.closeTime < 2 ^ 32 ∧
  L.closeResolution < 2 ^ 8 ∧ L.closeFlags < 2 ^ 8

instance (L : LedgerHeader) : Decidable L.wf := by
  unfold LedgerHeader.wf; infer_instance

/-- `Ledger::addRaw` (Ledger.cpp lines 369-380): serialize the nine header
fields in wire order. -/
def addRaw (L : LedgerHeader) : List Nat :=
  ser32 L.seq ++ ser64 L.totCoins ++ ser256 L.parentHash ++
  ser256 L.transHash ++ ser256 L.accountHash ++
  ser32 L.parentCloseTime ++ ser32 L.closeTime ++
  ser8 L.closeResolution ++ ser8 L.closeFlags

/-- Modelled from the spec: the numeric value of `HashPrefix::ledgerMaster`
(HashPrefix.h is not in the provided sources); the spec requires only "a
fixed domain tag" prefixed to the serialized fields. -/
def hashPrefixLedgerMaster : Nat := 0x4C575200

/-- The byte stream fed to `sha512Half` by `Ledger::updateHash`
(Ledger.cpp lines 334-344): the domain tag followed by the same
serialization of the nine fields that `addRaw` emits. -/
def updateHashInput (L : LedgerHeader) : List Nat :=
  ser32 hashPrefixLedgerMaster ++ addRaw L

/-- `Ledger::updateHash`, parametrized over the digest function `H`
(`sha512Half` is not in the provided sources; the spec treats it as an
ideal collision-free digest). -/
def updateHash {α : Type} (H : List Nat → α) (L : LedgerHeader) : α :=
  H (updateHashInput L)

/-- `Ledger::setRaw` (Ledger.cpp lines 348-362): parse the nine header
fields from a byte stream, optionally skipping a 4-byte prefix first. -/
def setRaw (hasPrefix : Bool) (b : List Nat) : Option LedgerHeader := do
  let b ← if hasPrefix then (get32 b).map Prod.snd else pure b
  let (seq, b) ← get32 b
  let (totCoins, b) ← get64 b
  let (parentHash, b) ← get256 b
  let (transHash, b) ← get256 b
  let (accountHash, b) ← get256 b
  let (parentCloseTime, b) ← get32 b
  let (closeTime, b) ← get32 b
  let (closeResolution, b) ← get8 b
  let (closeFlags, _) ← get8 b
  pure ⟨seq, totCoins, parentHash, transHash, accountHash,
    parentCloseTime, closeTime, closeResolution, closeFlags⟩

/-- A sample well-formed header used as a concrete evaluation point. -/
def sampleHeaderA : LedgerHeader :=
  ⟨300, 99999999000000, 123456789, 42, 7777, 1000, 1030, 30, 0⟩

/-- A second sample header, differing from `sampleHeaderA`. -/
def sampleHeaderB : LedgerHeader :=
  ⟨301, 99999999000000, 987654321, 43, 8888, 1030, 1060, 30, 1⟩

/-! ## Skip list (Ledger.cpp `updateSkipList`, `hashOfSeq`)

A skip-list ledger entry stores `sfLastLedgerSequence` (u32) and
`sfHashes` (a vector of 256-bit hashes). The ledger state, as far as the
skip-list code touches it, holds one entry under the fixed key
(`keylet::skip()` / `getLedgerHashIndex()`) and one entry per bucket key
(`keylet::skip(seq)` / `getLedgerHashIndex(seq)`). -/

structure SkipEntry where
  lastSeq : Nat
  hashes : List Nat
deriving DecidableEq, Repr

/-- The part of the ledger state the skip-list code reads and writes. -/
structure SkipState where
  window : Option SkipEntry
  buckets : Nat → Option SkipEntry

/-- Modelled from the spec: the every-256th list is "indexed by a key
derived from the truncated sequence" (the key derivation in Indexes.cpp is
not in the provided sources); the bucket holding sequence `seq` is
identified by the truncation `seq / 2^16`, so that one bucket spans 256
multiples of 256. -/
def skipBucketKey (seq : Nat) : Nat := seq / 2 ^ 16

/-- The u32 subtraction `a - b` as the C++ performs it (wraparound);
agrees with `a - b` on `Nat` whenever `b ≤ a < 2^32`. -/
def wrapSub32 (a b : Nat) : Nat := ((a + 2 ^ 32) - b) % 2 ^ 32

/-- A ledger as seen by `hashOfSeq`: its sequence, self-hash, parent hash
and the skip-list part of its state. -/
structure LedgerRec where
  seq : Nat
  hash : Nat
  parentHash : Nat
  state : SkipState

/-- The rolling-window attempt of `hashOfSeq` (Ledger.cpp lines
1517-1542): when the target is within 256, read the fixed skip entry and
index `vec[vec.size() - diff]` when `vec.size() >= diff`. -/
def windowLookup (L : LedgerRec) (k : Nat) : Option Nat :=
  if L.seq - k ≤ 256 then
    match L.state.window with
    | some e =>
      if L.seq - k ≤ e.hashes.length then
        some (e.hashes.getD (e.hashes.length - (L.seq - k)) 0)
      else none
    | none => none
  else none

/-- The every-256th bucket attempt of `hashOfSeq` (Ledger.cpp lines
1552-1565): read the bucket entry, compute `diff = (lastSeq - seq) >> 8`
with u32 arithmetic, and index `vec[vec.size() - diff - 1]` when
`vec.size() > diff`. -/
def bucketLookup (L : LedgerRec) (k : Nat) : Option Nat :=
  match L.state.buckets (skipBucketKey k) with
  | some e =>
    let d := wrapSub32 e.lastSeq k / 256
    if d < e.hashes.length then
      some (e.hashes.getD (e.hashes.length - d - 1) 0)
    else none
  | none => none

/-- `hashOfSeq` (Ledger.cpp lines 1500-1570). -/
def hashOfSeq (L : LedgerRec) (k : Nat) : Option Nat :=
  if L.seq < k then none
  else if k = L.seq then some L.hash
  else if k = L.seq - 1 then some L.parentHash
  else
    match windowLookup L k with
    | some h => some h
    | none =>
      if k % 256 ≠ 0 then none
      else bucketLookup L k

/-- The hash vector of the rolling-window entry (`[]` when absent),
mirroring the local `hashes` in `Ledger::updateSkipList`. -/
def windowHashes (st : SkipState) : List Nat :=
  match st.window with
  | some e => e.hashes
  | none => []

/-- The hash vector of a bucket entry (`[]` when absent). -/
def bucketHashes (st : SkipState) (key : Nat) : List Nat :=
  match st.buckets key with
  | some e => e.hashes
  | none => []

/-- First block of `Ledger::updateSkipList` (Ledger.cpp lines 1297-1325):
when `(seq - 1) % 256 = 0`, append the parent hash to the every-256th
bucket entry under the truncated-sequence key and stamp its last-sequence
field. -/
def bucketStep (seq parentHash : Nat) (st : SkipState) : SkipState :=
  if (seq - 1) % 256 = 0 then
    { st with buckets := fun j =>
        if j = skipBucketKey (seq - 1)
        then some ⟨seq - 1, bucketHashes st (skipBucketKey (seq - 1)) ++ [parentHash]⟩
        else st.buckets j }
  else st

/-- Second block of `Ledger::updateSkipList` (Ledger.cpp lines 1327-1352):
append the parent hash to the rolling-window entry, dropping the oldest
hash when the window already holds 256. -/
def windowStep (seq parentHash : Nat) (st : SkipState) : SkipState :=
  { st with window := some ⟨seq - 1,
      (if (windowHashes st).length = 256
       then (windowHashes st).drop 1
       else windowHashes st) ++ [parentHash]⟩ }

/-- `Ledger::updateSkipList` (Ledger.cpp lines 1290-1353), acting on the
skip-list part of the ledger's own state; `seq` is the ledger's sequence
and `parentHash` its parent hash. -/
def updateSkipList (seq parentHash : Nat) (st : SkipState) : SkipState :=
  if seq = 0 then st
  else windowStep seq parentHash (bucketStep seq parentHash st)

/-- A concrete skip state: a window of three hashes, no buckets. -/
def skipStC : SkipState := ⟨some ⟨255, [1, 2, 3]⟩, fun _ => none⟩

/-! ## Correctness of `hashOfSeq` against the chain

`hashAt` assigns to every sequence number the hash of the chain's ledger
with that sequence; `stateWF` says the skip entries of `L`'s state record
those hashes the way `updateSkipList` lays them out. -/

/-- The skip entries of `L`'s state are faithful to the chain `hashAt`:
the rolling window ends at `L.seq - 1` and lists consecutive hashes; each
bucket entry ends at a multiple of 256 (a u32) and lists every-256th
hashes. -/
def stateWF (hashAt : Nat → Nat) (L : LedgerRec) : Prop :=
  (∀ e, L.state.window = some e →
    e.lastSeq = L.seq - 1 ∧ e.hashes.length ≤ 256 ∧
    e.hashes.length < L.seq ∧
    ∀ i, i < e.hashes.length →
      e.hashes.getD i 0 = hashAt (L.seq - e.hashes.length + i)) ∧
  (∀ b e, L.state.buckets b = some e →
    e.lastSeq % 256 = 0 ∧ e.lastSeq < 2 ^ 32 ∧
    ∀ i, i < e.hashes.length →
      e.hashes.getD i 0 = hashAt (e.lastSeq - 256 * (e.hashes.length - 1 - i)))

/-- Sequence `k` is within the rolling window's recorded range. -/
def windowCovers (L : LedgerRec) (k : Nat) : Prop :=
  match L.state.window with
  | some e => L.seq - k ≤ 256 ∧ L.seq - k ≤ e.hashes.length
  | none => False

/-- Sequence `k` is within the recorded range of its every-256th bucket. -/
def bucketCovers (L : LedgerRec) (k : Nat) : Prop :=
  match L.state.buckets (skipBucketKey k) with
  | some e => k ≤ e.lastSeq ∧ (e.lastSeq - k) / 256 < e.hashes.length
  | none => False

/-- The rolling-window hash vector a 300-ledger chain leaves in ledger
300's state: the hashes of ledgers 44 through 299 (where the chain's
ledger of sequence n has hash n). -/
def win300 : List Nat := (List.range 256).map (fun j => 44 + j)

/-- Ledger 300 of a 300-ledger chain whose ledger n has hash n: seq 300,
hash 300, parent hash 299, rolling window holding hashes 44..299. -/
def chain300 : LedgerRec :=
  ⟨300, 300, 299, ⟨some ⟨299, win300⟩, fun _ => none⟩⟩

/-- Ledger 300's state with the every-256th bucket present exactly as a
300-ledger chain would leave it (bucket 0 holding ledger 256's hash) but
the rolling-window entry absent. -/
def bucketOnly300 : LedgerRec :=
  ⟨300, 300, 299, ⟨none, fun b => if b = 0 then some ⟨256, [256]⟩ else none⟩⟩

/-! ## Close time on acceptance (Ledger.cpp `setAccepted`, open-child
constructor) -/

/-- Modelled from the spec: `roundCloseTime` (LedgerTiming.cpp is not in
the provided sources); the spec's close-time computation is
`round_up(T, R)` — the smallest multiple of the resolution at or above
the agreed time. -/
def roundCloseTime (t r : Nat) : Nat :=
  if r = 0 then t else (t + r - 1) / r * r

/-- Modelled from the spec: the `NoConsensusTime` header flag bit
(`sLCF_NoConsensusTime`; Ledger.h is not in the provided sources). -/
def sLCF_NoConsensusTime : Nat := 1

/-- The header fields `Ledger::setAccepted` mutates. -/
structure CloseInfo where
  closeTime : Nat
  closeResolution : Nat
  closeFlags : Nat
  accepted : Bool
deriving DecidableEq, Repr

/-- `Ledger::setAccepted(closeTime, closeResolution, correctCloseTime)`
(Ledger.cpp lines 382-395): round the close time only when consensus on
it was reached, record the resolution, set or clear the NoConsensusTime
flag, and mark accepted. -/
def setAccepted (closeTime closeResolution : Nat) (correctCloseTime : Bool)
    (_ : CloseInfo) : CloseInfo :=
  { closeTime := if correctCloseTime
      then roundCloseTime closeTime closeResolution else closeTime,
    closeResolution := closeResolution,
    closeFlags := if correctCloseTime then 0 else sLCF_NoConsensusTime,
    accepted := true }

/-- Close time given to a new open child ledger (Ledger.cpp lines
259-268): when the parent has a nonzero close time, the child's tentative
close time is the parent's close time plus one resolution unit; otherwise
the rounded network time. -/
def openChildCloseTime (prevCloseTime res now : Nat) : Nat :=
  if prevCloseTime = 0 then roundCloseTime now res else prevCloseTime + res

/-! ## Validation timestamps (ConsensusImp.cpp `validationTimestamp`) -/

/-- `ConsensusImp::validationTimestamp` (ConsensusImp.cpp lines 108-118):
given the current network time and the stored last timestamp, returns the
issued timestamp and the updated stored timestamp. -/
def nextValidationTimestamp (networkTime lastTimestamp : Nat) : Nat :=
  if networkTime ≤ lastTimestamp then lastTimestamp + 1 else networkTime

/-- `ConsensusImp::validationTimestamp` as a state transformer: the issued
value and the updated `lastValidationTimestamp_` (both are `vt`). -/
def validationTimestamp (networkTime lastTimestamp : Nat) : Nat × Nat :=
  (nextValidationTimestamp networkTime lastTimestamp,
   nextValidationTimestamp networkTime lastTimestamp)

/-! ## Admission queue (TxQ.h)

TxQ.h is in the sources but TxQ.cpp is not: the queue structure
(`FeeMultiSet` ordered by descending fee level, per-account
`std::map<TxSeq, CandidateTxn>`) and the documented decision procedures
of `TxQ::apply`, `TxQ::accept` and `TxQ::processValidatedLedger` come
from the header; the numeric details missing from the header
(`scaleFeeLevel`'s formula, the `retrySequencePercent` margin) are
modelled from the spec. -/

/-- `TxQ::FeeMetrics::baseLevel` (TxQ.h line 197). -/
def baseLevel : Nat := 256

/-- Modelled from the spec: `TxQ::FeeMetrics::scaleFeeLevel` (TxQ.cpp is
not in the provided sources) — at or below capacity the required fee
level is the base level; above capacity it is
`base_level * multiplier * open_count^2 / txns_expected^2`. -/
def scaleFeeLevel (txnsExpected escalationMultiplier openCount : Nat) : Nat :=
  if txnsExpected < openCount then
    baseLevel * escalationMultiplier * openCount * openCount /
      (txnsExpected * txnsExpected)
  else baseLevel

/-- `TxQ::CandidateTxn` (TxQ.h lines 249-283), reduced to the fields the
queue logic reads: signing account, sequence number, fee level, optional
last-valid ledger sequence. -/
structure Candidate where
  account : Nat
  sequence : Nat
  feeLevel : Nat
  lastValid : Option Nat
deriving DecidableEq, Repr

/-- The `(account, sequence)` key test used by the per-account index. -/
def keyMatch (a s : Nat) (c : Candidate) : Bool :=
  c.account == a && c.sequence == s

/-- Outcome of `TxQ::apply` as far as the claims distinguish: applied to
the open ledger, held in the queue, or rejected with a low-fee code. -/
inductive AdmitResult
  | applied
  | queued
  | rejectedLowFee
deriving DecidableEq, Repr

/-- Modelled from the spec: the fee level a replacement must reach —
the queued entry's level increased by `retrySequencePercent` percent
(TxQ.cpp is not in the provided sources; TxQ.h documents only that a
higher fee is needed, the spec fixes the margin). -/
def replaceRequiredLevel (queuedLevel retryPct : Nat) : Nat :=
  queuedLevel * (100 + retryPct) / 100

/-- Insertion into the fee-ordered multiset (descending fee level,
insertion order breaking ties). -/
def insertByFee (tx : Candidate) : List Candidate → List Candidate
  | [] => [tx]
  | c :: rest =>
      if c.feeLevel < tx.feeLevel then tx :: c :: rest
      else c :: insertByFee tx rest

/-- Modelled from the spec: steps 4-5 of `TxQ::apply`'s documented
decision procedure (TxQ.h lines 99-107) — hold the transaction if it can
be held; evict the lowest-fee end item when the queue is full and the
newcomer pays more, else reject. -/
def holdStep (maxSize : Nat) (canBeHeld : Bool) (tx : Candidate)
    (q : List Candidate) : AdmitResult × List Candidate :=
  if canBeHeld then
    if q.length < maxSize then (.queued, insertByFee tx q)
    else
      match q.getLast? with
      | some lowest =>
          if lowest.feeLevel < tx.feeLevel then
            (.queued, insertByFee tx q.dropLast)
          else (.rejectedLowFee, q)
      | none => (.rejectedLowFee, q)
  else (.rejectedLowFee, q)

/-- Modelled from the spec: steps 2-3 of `TxQ::apply`'s documented
decision procedure (TxQ.h lines 96-102) — apply directly when the fee
level meets the required level and the apply succeeds; otherwise try to
hold. `applySucceeds` abstracts the `ripple::apply` outcome. -/
def applyStep (required maxSize : Nat) (canBeHeld applySucceeds : Bool)
    (tx : Candidate) (q : List Candidate) : AdmitResult × List Candidate :=
  if required ≤ tx.feeLevel then
    if applySucceeds then (.applied, q)
    else holdStep maxSize canBeHeld tx q
  else holdStep maxSize canBeHeld tx q

/-- Modelled from the spec: `TxQ::apply`'s documented decision procedure
(TxQ.h lines 89-108) — step 1 consults the per-account index for an entry
with the same (account, sequence); a replacement must beat the queued fee
level by the `retrySequencePercent` margin, and replacing removes the
queued entry before continuing. -/
def admitTx (retryPct required maxSize : Nat)
    (canBeHeld applySucceeds : Bool) (tx : Candidate)
    (q : List Candidate) : AdmitResult × List Candidate :=
  match q.find? (keyMatch tx.account tx.sequence) with
  | some existing =>
      if tx.feeLevel < replaceRequiredLevel existing.feeLevel retryPct then
        (.rejectedLowFee, q)
      else applyStep required maxSize canBeHeld applySucceeds tx
        (q.eraseP (keyMatch tx.account tx.sequence))
  | none => applyStep required maxSize canBeHeld applySucceeds tx q

/-- Modelled from the spec: `TxQ::accept`'s documented procedure (TxQ.h
lines 119-135) — walk the fee-ordered queue from highest level; stop at
the first entry below the required level; remove entries that apply,
leave the rest. -/
def drain (required : Nat) (applies : Candidate → Bool) :
    List Candidate → List Candidate
  | [] => []
  | c :: rest =>
      if c.feeLevel < required then c :: rest
      else if applies c then drain required applies rest
      else c :: drain required applies rest

/-- Modelled from the spec: `TxQ::processValidatedLedger`'s documented
procedure (TxQ.h lines 137-152) — trim the low-fee tail to the new
maximum size, then drop entries whose last-valid ledger sequence has
passed. -/
def sweep (newMaxSize validatedSeq : Nat) (q : List Candidate) :
    List Candidate :=
  (q.take newMaxSize).filter fun c =>
    match c.lastValid with
    | some lv => decide (validatedSeq ≤ lv)
    | none => true

/-! ## The at-most-one-per-(account, sequence) invariant (C8) -/

/-- Number of queued transactions with signer `a` and sequence `s`. -/
def countKey (a s : Nat) (q : List Candidate) : Nat :=
  (q.filter (keyMatch a s)).length

/-- The queue holds at most one transaction per (account, sequence) — the
multiplicity invariant the per-account `std::map<TxSeq, CandidateTxn>`
index (TxQ.h lines 294-324) realizes. -/
def InvQ (q : List Candidate) : Prop := ∀ a s, countKey a s q ≤ 1

/-! ## Theorems -/

/-! ### Serializer round-trip lemmas -/

theorem serBE_length (w n : Nat) : (serBE w n).length = w := by
  induction w generalizing n with
  | zero => rfl
  | succ w ih => simp [serBE, ih]

theorem foldl_serBE (w n acc : Nat) :
    (serBE w n).foldl (fun a b => a * 256 + b) acc = acc * 256 ^ w + n % 256 ^ w := by
  induction w generalizing acc with
  | zero => simp [serBE, Nat.mod_one]
  | succ w ih =>
    simp only [serBE, List.foldl_cons, ih]
    have h256 : (256 : Nat) ^ (w + 1) = 256 ^ w * 256 := by ring
    have hmod : n % 256 ^ (w + 1) = n % 256 ^ w + 256 ^ w * (n / 256 ^ w % 256) := by
      rw [h256, Nat.mod_mul]
    rw [hmod]
    ring

theorem decodeBE_serBE (w n : Nat) : decodeBE (serBE w n) = n % 256 ^ w := by
  simpa using foldl_serBE w n 0

theorem getBytes_append (w n : Nat) (r : List Nat) :
    getBytes w (serBE w n ++ r) = some (serBE w n, r) := by
  have hl : (serBE w n).length = w := serBE_length w n
  simp [getBytes, hl, List.take_left', List.drop_left', le_add_right]

theorem get32_append (n : Nat) (r : List Nat) :
    get32 (ser32 n ++ r) = some (n % 2 ^ 32, r) := by
  have : (256 : Nat) ^ 4 = 2 ^ 32 := by norm_num
  simp [get32, ser32, getBytes_append, decodeBE_serBE, this]

theorem get64_append (n : Nat) (r : List Nat) :
    get64 (ser64 n ++ r) = some (n % 2 ^ 64, r) := by
  have : (256 : Nat) ^ 8 = 2 ^ 64 := by norm_num
  simp [get64, ser64, getBytes_append, decodeBE_serBE, this]

theorem get256_append (n : Nat) (r : List Nat) :
    get256 (ser256 n ++ r) = some (n % 2 ^ 256, r) := by
  have : (256 : Nat) ^ 32 = 2 ^ 256 := by norm_num
  simp [get256, ser256, getBytes_append, decodeBE_serBE, this]

theorem get8_append (n : Nat) (r : List Nat) :
    get8 (ser8 n ++ r) = some (n % 2 ^ 8, r) := by
  have : (256 : Nat) ^ 1 = 2 ^ 8 := by norm_num
  simp [get8, ser8, getBytes_append, decodeBE_serBE, this]

theorem get8_nil (n : Nat) : get8 (ser8 n) = some (n % 2 ^ 8, []) := by
  have := get8_append n []
  simpa using this

theorem setRaw_addRaw (L : LedgerHeader) (h : L.wf) :
    setRaw false (addRaw L) = some L := by
  obtain ⟨h1, h2, h3, h4, h5, h6, h7, h8, h9⟩ := h
  simp only [setRaw, addRaw, Option.pure_def, Option.bind_eq_bind,
    Option.some_bind, List.append_assoc, get32_append, get64_append,
    get256_append, get8_append, get8_nil, Bool.false_eq_true, if_false]
  rw [Nat.mod_eq_of_lt h1, Nat.mod_eq_of_lt h2, Nat.mod_eq_of_lt h3,
    Nat.mod_eq_of_lt h4, Nat.mod_eq_of_lt h5, Nat.mod_eq_of_lt h6,
    Nat.mod_eq_of_lt h7, Nat.mod_eq_of_lt h8, Nat.mod_eq_of_lt h9]

/-- C1: the ledger self-hash is a pure function of exactly the nine header
fields, computed as the domain-tagged digest of the fields in wire order;
for any injective (ideal) digest, two ledgers have equal hashes if and
only if their serialized headers are equal. -/
theorem C1_hash_iff_serialized_header {α : Type} (H : List Nat → α)
    (hinj : Function.Injective H) (L1 L2 : LedgerHeader) :
    (updateHash H L1 = updateHash H L2 ↔ addRaw L1 = addRaw L2) ∧
    updateHash H L1 = H (ser32 hashPrefixLedgerMaster ++ addRaw L1) := by
  refine ⟨⟨fun h => ?_, fun h => ?_⟩, rfl⟩
  · have h2 : updateHashInput L1 = updateHashInput L2 := hinj h
    exact List.append_cancel_left h2
  · show H _ = H _
    rw [updateHashInput, updateHashInput, h]

/-- Witness for C1: the identity digest is injective; evaluating at two
concrete distinct headers. -/
theorem C1_hash_iff_serialized_header_witness :
    (updateHash (fun b => b) sampleHeaderA = updateHash (fun b => b) sampleHeaderB ↔
      addRaw sampleHeaderA = addRaw sampleHeaderB) ∧
    updateHash (fun b => b) sampleHeaderA =
      (fun b => b) (ser32 hashPrefixLedgerMaster ++ addRaw sampleHeaderA) :=
  C1_hash_iff_serialized_header (fun b => b) (fun _ _ h => h)
    sampleHeaderA sampleHeaderB

/-- C5: serializing a ledger header and deserializing the bytes yields the
original header field-for-field, and hence the identical self-hash input. -/
theorem C5_header_roundtrip (L : LedgerHeader) (h : L.wf) :
    setRaw false (addRaw L) = some L ∧
    (setRaw false (addRaw L)).map updateHashInput = some (updateHashInput L) := by
  have hr := setRaw_addRaw L h
  exact ⟨hr, by rw [hr, Option.map_some']⟩

/-- Witness for C5: round trip at a concrete well-formed header. -/
theorem C5_header_roundtrip_witness :
    sampleHeaderA.wf ∧ setRaw false (addRaw sampleHeaderA) = some sampleHeaderA :=
  ⟨by decide, (C5_header_roundtrip sampleHeaderA (by decide)).1⟩

theorem bucketStep_window (seq p : Nat) (st : SkipState) :
    (bucketStep seq p st).window = st.window := by
  unfold bucketStep; split_ifs <;> rfl

theorem windowHashes_bucketStep (seq p : Nat) (st : SkipState) :
    windowHashes (bucketStep seq p st) = windowHashes st := by
  unfold windowHashes; rw [bucketStep_window]

/-- C6: for a ledger with seq > 0 whose rolling-window entry holds at most
256 hashes, `updateSkipList` rewrites the rolling-window entry to carry
`lastSeq = seq - 1` and the old hashes (oldest dropped when the window was
full) with the parent hash appended last, keeping the vector length at
most 256; it writes the every-256th bucket (appending the parent hash
under the truncated-sequence key, leaving all other buckets unchanged)
exactly when `(seq - 1) % 256 = 0`; and a ledger with seq = 0 changes
nothing. -/
theorem C6_updateSkipList_spec (seq p : Nat) (st : SkipState)
    (hseq : 0 < seq) (hlen : (windowHashes st).length ≤ 256) :
    (updateSkipList seq p st).window =
      some ⟨seq - 1,
        (if (windowHashes st).length = 256
         then (windowHashes st).drop 1 else windowHashes st) ++ [p]⟩ ∧
    (windowHashes (updateSkipList seq p st)).length ≤ 256 ∧
    ((seq - 1) % 256 = 0 →
      (updateSkipList seq p st).buckets (skipBucketKey (seq - 1)) =
        some ⟨seq - 1, bucketHashes st (skipBucketKey (seq - 1)) ++ [p]⟩ ∧
      ∀ j, j ≠ skipBucketKey (seq - 1) →
        (updateSkipList seq p st).buckets j = st.buckets j) ∧
    ((seq - 1) % 256 ≠ 0 →
      (updateSkipList seq p st).buckets = st.buckets) ∧
    updateSkipList 0 p st = st := by
  have hne : seq ≠ 0 := by omega
  have hu : updateSkipList seq p st =
      windowStep seq p (bucketStep seq p st) := by
    unfold updateSkipList; rw [if_neg hne]
  refine ⟨?_, ?_, fun hb => ⟨?_, fun j hj => ?_⟩, fun hb => ?_,
    by simp [updateSkipList]⟩
  · rw [hu]; unfold windowStep
    rw [windowHashes_bucketStep]
  · rw [hu]
    show ((if (windowHashes (bucketStep seq p st)).length = 256
       then (windowHashes (bucketStep seq p st)).drop 1
       else windowHashes (bucketStep seq p st)) ++ [p]).length ≤ 256
    rw [windowHashes_bucketStep]
    rw [List.length_append]
    simp only [List.length_cons, List.length_nil]
    split_ifs with h256
    · rw [List.length_drop]; omega
    · omega
  · rw [hu]; unfold windowStep bucketStep
    rw [if_pos hb]
    simp
  · rw [hu]; unfold windowStep bucketStep
    rw [if_pos hb]
    simp [hj]
  · rw [hu]; unfold windowStep bucketStep
    rw [if_neg hb]

/-- Witness for C6: a ledger with seq = 257 (so prev 256 is a multiple of
256) appends its parent hash to the window and writes bucket 0. -/
theorem C6_updateSkipList_spec_witness :
    (0 : Nat) < 257 ∧ (windowHashes skipStC).length ≤ 256 ∧
    (updateSkipList 257 999 skipStC).window = some ⟨256, [1, 2, 3, 999]⟩ ∧
    (updateSkipList 257 999 skipStC).buckets (skipBucketKey 256) =
      some ⟨256, [999]⟩ := by
  have h := C6_updateSkipList_spec 257 999 skipStC (by decide) (by decide)
  refine ⟨by decide, by decide, ?_, ?_⟩
  · have := h.1
    simpa [skipStC, windowHashes] using this
  · have := (h.2.2.1 (by decide)).1
    simpa [skipStC, bucketHashes] using this

theorem windowLookup_sound (hashAt : Nat → Nat) (L : LedgerRec)
    (hWF : stateWF hashAt L) (k h : Nat) (hk2 : k + 1 < L.seq)
    (hw : windowLookup L k = some h) : h = hashAt k := by
  unfold windowLookup at hw
  split at hw
  · split at hw
    · rename_i e heq
      split at hw
      · rename_i hle
        obtain ⟨_, _, hlt, hidx⟩ := hWF.1 e heq
        have hgd := hidx (e.hashes.length - (L.seq - k)) (by omega)
        rw [Option.some_inj] at hw
        rw [← hw, hgd]
        congr 1
        omega
      · exact absurd hw (by simp)
    · exact absurd hw (by simp)
  · exact absurd hw (by simp)

theorem windowCovers_ne_none (L : LedgerRec) (k : Nat)
    (h : windowCovers L k) : windowLookup L k ≠ none := by
  unfold windowCovers at h
  split at h
  · rename_i e heq
    unfold windowLookup
    rw [heq, if_pos h.1]
    show (if L.seq - k ≤ e.hashes.length
        then some (e.hashes.getD (e.hashes.length - (L.seq - k)) 0)
        else none) ≠ none
    rw [if_pos h.2]
    simp
  · exact h.elim

theorem bucketLookup_covered (hashAt : Nat → Nat) (L : LedgerRec)
    (hWF : stateWF hashAt L) (k : Nat) (hmod : k % 256 = 0)
    (hcov : bucketCovers L k) : bucketLookup L k = some (hashAt k) := by
  unfold bucketCovers at hcov
  split at hcov
  · rename_i e heq
    obtain ⟨hkle, hdlt⟩ := hcov
    obtain ⟨hm, hbound, hidx⟩ := hWF.2 (skipBucketKey k) e heq
    have hwrap : wrapSub32 e.lastSeq k = e.lastSeq - k := by
      unfold wrapSub32; omega
    unfold bucketLookup
    rw [heq]
    show (if wrapSub32 e.lastSeq k / 256 < e.hashes.length
        then some (e.hashes.getD
          (e.hashes.length - wrapSub32 e.lastSeq k / 256 - 1) 0)
        else none) = some (hashAt k)
    rw [hwrap, if_pos hdlt]
    rw [hidx (e.hashes.length - (e.lastSeq - k) / 256 - 1) (by omega)]
    have harg : e.lastSeq - 256 * (e.hashes.length - 1 -
        (e.hashes.length - (e.lastSeq - k) / 256 - 1)) = k := by omega
    rw [harg]
  · exact hcov.elim

/-- C2 (amended): for a ledger whose skip entries faithfully record the
chain and whose own hash and parent hash agree with it, `hashOfSeq`
returns `L.hash` at `k = L.seq`, `L.parentHash` at `k = L.seq - 1`, and
the chain's hash at any other `k` covered by the rolling window, or
covered by its every-256th bucket when `k` is a multiple of 256. -/
theorem C2_hashOfSeq_skiplist (hashAt : Nat → Nat) (L : LedgerRec)
    (hWF : stateWF hashAt L) (hh : L.hash = hashAt L.seq)
    (hp : L.parentHash = hashAt (L.seq - 1)) (k : Nat) (hk : k ≤ L.seq)
    (hcov : k = L.seq ∨ k = L.seq - 1 ∨
      (k + 1 < L.seq ∧ (windowCovers L k ∨ (k % 256 = 0 ∧ bucketCovers L k)))) :
    hashOfSeq L k = some (hashAt k) := by
  unfold hashOfSeq
  rw [if_neg (by omega : ¬ L.seq < k)]
  by_cases hke : k = L.seq
  · rw [if_pos hke, hh, hke]
  · rw [if_neg hke]
    by_cases hkp : k = L.seq - 1
    · rw [if_pos hkp, hp, hkp]
    · rw [if_neg hkp]
      have hk2 : k + 1 < L.seq := by
        rcases hcov with h | h | h
        · exact absurd h hke
        · exact absurd h hkp
        · exact h.1
      cases hwl : windowLookup L k with
      | some h =>
        rw [windowLookup_sound hashAt L hWF k h hk2 hwl]
      | none =>
        rcases hcov with h | h | ⟨_, hwin | ⟨hmod, hbuck⟩⟩
        · exact absurd h hke
        · exact absurd h hkp
        · exact absurd hwl (windowCovers_ne_none L k hwin)
        · rw [if_neg (by omega : ¬ k % 256 ≠ 0)]
          exact bucketLookup_covered hashAt L hWF k hmod hbuck

theorem range_map_getD (b n i : Nat) (h : i < n) :
    ((List.range n).map (fun j => b + j)).getD i 0 = b + i := by
  rw [List.getD_eq_getElem?_getD]
  rw [List.getElem?_map]
  rw [List.getElem?_range h]
  rfl

theorem chain300_wf : stateWF (fun n => n) chain300 := by
  constructor
  · intro e he
    have he' : e = ⟨299, win300⟩ := (Option.some_inj.mp he).symm
    subst he'
    refine ⟨rfl, by simp [win300], by simp [win300, chain300], ?_⟩
    intro i hi
    have hlen : win300.length = 256 := by simp [win300]
    rw [hlen] at hi
    have h1 : win300.getD i 0 = 44 + i := by
      unfold win300; exact range_map_getD 44 256 i hi
    rw [h1, hlen]
    show 44 + i = 300 - 256 + i
    omega
  · intro b e he
    simp [chain300] at he

/-- Witness for C2 (amended): on the 300-ledger chain, `hashOfSeq` at 299
returns the parent hash, and at 44 returns ledger 44's hash — via the
rolling window (300 - 44 = 256 ≤ 256). -/
theorem C2_hashOfSeq_skiplist_witness :
    hashOfSeq chain300 299 = some 299 ∧ hashOfSeq chain300 44 = some 44 := by
  constructor
  · exact C2_hashOfSeq_skiplist (fun n => n) chain300 chain300_wf rfl rfl
      299 (by decide) (Or.inr (Or.inl (by decide)))
  · refine C2_hashOfSeq_skiplist (fun n => n) chain300 chain300_wf rfl rfl
      44 (by decide) (Or.inr (Or.inr ⟨by decide, Or.inl ?_⟩))
    show 300 - 44 ≤ 256 ∧ 300 - 44 ≤ win300.length
    have hlen : win300.length = 256 := by simp [win300]
    rw [hlen]
    omega

/-- Counterexample to C2 as stated: sequence 44 cannot be served "via the
multiple-of-256 bucket" — with the bucket present and the rolling window
absent, `hashOfSeq` returns `none` for 44 (the bucket branch is reached
only when the target sequence is a multiple of 256), so the value for 44
on a 300-ledger chain comes from the rolling window instead. -/
theorem C2_bucket_counterexample : hashOfSeq bucketOnly300 44 = none := by
  decide

/-- C10: `hashOfSeq` fabricates nothing — it returns `none` for every
sequence strictly greater than the ledger's own, and `none` for every
past sequence (other than `seq` and `seq - 1`) on which the rolling
window lookup fails and which the every-256th bucket cannot serve
(not a multiple of 256, or its bucket lookup fails). -/
theorem C10_hashOfSeq_none (L : LedgerRec) (k : Nat) :
    (L.seq < k → hashOfSeq L k = none) ∧
    (k + 1 < L.seq → windowLookup L k = none →
      (k % 256 ≠ 0 ∨ bucketLookup L k = none) → hashOfSeq L k = none) := by
  constructor
  · intro h
    unfold hashOfSeq
    rw [if_pos h]
  · intro hk2 hwl hrest
    unfold hashOfSeq
    rw [if_neg (by omega : ¬ L.seq < k), if_neg (by omega : ¬ k = L.seq),
      if_neg (by omega : ¬ k = L.seq - 1), hwl]
    show (if k % 256 ≠ 0 then none else bucketLookup L k) = none
    rcases hrest with h | h
    · rw [if_pos h]
    · by_cases hm : k % 256 ≠ 0
      · rw [if_pos hm]
      · rw [if_neg hm, h]

/-- Witness for C10: the future sequence 301 on ledger 300, and the
uncovered past sequence 45 on a ledger with no rolling window. -/
theorem C10_hashOfSeq_none_witness :
    hashOfSeq chain300 301 = none ∧ hashOfSeq bucketOnly300 45 = none := by
  constructor
  · exact (C10_hashOfSeq_none chain300 301).1 (by decide)
  · exact (C10_hashOfSeq_none bucketOnly300 45).2 (by decide) (by rfl)
      (Or.inl (by decide))

/-- C7: accepting with an agreed consensus close time stores that time
rounded to the close resolution and clears the close flags; accepting
without consensus stores the caller's close time unrounded and sets the
NoConsensusTime flag — and the caller's value, per the open-child
constructor, is the parent close time plus one resolution unit whenever
the parent close time is nonzero. -/
theorem C7_setAccepted_close_time (ct res : Nat) (L : CloseInfo) :
    (setAccepted ct res true L).closeTime = roundCloseTime ct res ∧
    (setAccepted ct res true L).closeFlags = 0 ∧
    (setAccepted ct res false L).closeTime = ct ∧
    (setAccepted ct res false L).closeFlags = sLCF_NoConsensusTime ∧
    ∀ prevCT now, prevCT ≠ 0 →
      openChildCloseTime prevCT res now = prevCT + res := by
  refine ⟨rfl, rfl, rfl, rfl, fun prevCT now h => ?_⟩
  unfold openChildCloseTime
  rw [if_neg h]

/-- Witness for C7 at concrete values: agreed time 103 at resolution 30
rounds up to 120; without consensus 103 is stored as-is with the flag
set; a parent close time of 100 yields child tentative close 130. -/
theorem C7_setAccepted_close_time_witness :
    (setAccepted 103 30 true ⟨0, 30, 0, false⟩).closeTime = 120 ∧
    (setAccepted 103 30 false ⟨0, 30, 0, false⟩).closeTime = 103 ∧
    (setAccepted 103 30 false ⟨0, 30, 0, false⟩).closeFlags =
      sLCF_NoConsensusTime ∧
    openChildCloseTime 100 30 0 = 130 := by
  have h := C7_setAccepted_close_time 103 30 ⟨0, 30, 0, false⟩
  refine ⟨?_, h.2.2.1, h.2.2.2.1, ?_⟩
  · rw [h.1]; decide
  · rw [h.2.2.2.2 100 0 (by decide)]

/-- C9: each issued validation timestamp is the maximum of the current
network time and one more than the previously issued timestamp, so it
strictly exceeds the stored previous one (and any immediately following
call returns a strictly larger value, even if the clock stalls or goes
backwards). -/
theorem C9_validationTimestamp_strictly_increasing (nt last : Nat) :
    (validationTimestamp nt last).1 = max nt (last + 1) ∧
    last < (validationTimestamp nt last).1 ∧
    (validationTimestamp nt last).2 = (validationTimestamp nt last).1 ∧
    ∀ nt2, (validationTimestamp nt last).1 <
      (validationTimestamp nt2 (validationTimestamp nt last).2).1 := by
  unfold validationTimestamp nextValidationTimestamp
  refine ⟨?_, ?_, rfl, ?_⟩
  · split_ifs <;> omega
  · split_ifs <;> omega
  · intro nt2
    split_ifs <;> omega

/-- C3: the required fee level equals the base level 256 when the open
view holds at most `txns_expected` transactions, and
`256 * multiplier * count^2 / expected^2` when it holds more; with
expected 5, multiplier 500 and 6 transactions the level is 184,320. -/
theorem C3_scaleFeeLevel_spec (txnsExpected multiplier openCount : Nat) :
    (openCount ≤ txnsExpected →
      scaleFeeLevel txnsExpected multiplier openCount = 256) ∧
    (txnsExpected < openCount →
      scaleFeeLevel txnsExpected multiplier openCount =
        256 * multiplier * openCount * openCount /
          (txnsExpected * txnsExpected)) ∧
    scaleFeeLevel 5 500 6 = 184320 := by
  refine ⟨fun h => ?_, fun h => ?_, by decide⟩
  · unfold scaleFeeLevel baseLevel
    rw [if_neg (by omega)]
  · unfold scaleFeeLevel baseLevel
    rw [if_pos h]

/-- Witness for C3: 6 transactions against 5 expected escalate to
256·500·36/25 = 184,320; 3 against 5 stay at the base level. -/
theorem C3_scaleFeeLevel_spec_witness :
    scaleFeeLevel 5 500 6 = 256 * 500 * 6 * 6 / (5 * 5) ∧
    scaleFeeLevel 5 500 3 = 256 :=
  ⟨(C3_scaleFeeLevel_spec 5 500 6).2.1 (by decide),
   (C3_scaleFeeLevel_spec 5 500 3).1 (by decide)⟩

/-- C4: with an entry of the same (account, sequence) queued, a new
transaction below the queued level raised by `retrySequencePercent`
percent is rejected with a low-fee code leaving the queue unchanged, and
one at or above that threshold (that is itself held) replaces the queued
entry. -/
theorem C4_queue_replacement (retryPct required maxSize : Nat)
    (canBeHeld applySucceeds : Bool) (tx existing : Candidate)
    (q : List Candidate)
    (hfind : q.find? (keyMatch tx.account tx.sequence) = some existing) :
    (tx.feeLevel < replaceRequiredLevel existing.feeLevel retryPct →
      admitTx retryPct required maxSize canBeHeld applySucceeds tx q =
        (.rejectedLowFee, q)) ∧
    (replaceRequiredLevel existing.feeLevel retryPct ≤ tx.feeLevel →
      tx.feeLevel < required → canBeHeld = true →
      (q.eraseP (keyMatch tx.account tx.sequence)).length < maxSize →
      admitTx retryPct required maxSize canBeHeld applySucceeds tx q =
        (.queued,
         insertByFee tx (q.eraseP (keyMatch tx.account tx.sequence)))) := by
  constructor
  · intro h
    unfold admitTx
    rw [hfind]
    show (if tx.feeLevel < replaceRequiredLevel existing.feeLevel retryPct
        then ((.rejectedLowFee, q) : AdmitResult × List Candidate)
        else applyStep required maxSize canBeHeld applySucceeds tx
          (q.eraseP (keyMatch tx.account tx.sequence))) =
      (.rejectedLowFee, q)
    rw [if_pos h]
  · intro hge hreq hheld hlen
    subst hheld
    unfold admitTx
    rw [hfind]
    show (if tx.feeLevel < replaceRequiredLevel existing.feeLevel retryPct
        then ((.rejectedLowFee, q) : AdmitResult × List Candidate)
        else applyStep required maxSize true applySucceeds tx
          (q.eraseP (keyMatch tx.account tx.sequence))) =
      (.queued, insertByFee tx (q.eraseP (keyMatch tx.account tx.sequence)))
    rw [if_neg (by omega)]
    unfold applyStep
    rw [if_neg (by omega)]
    unfold holdStep
    rw [if_pos rfl, if_pos hlen]

/-- Witness for C4 at the spec's concrete values: with (A=1, seq=7,
level=1000) queued and `retrySequencePercent = 25`, level 1249 is
rejected leaving the queue unchanged and level 1250 replaces. -/
theorem C4_queue_replacement_witness :
    admitTx 25 184320 10 true false ⟨1, 7, 1249, none⟩ [⟨1, 7, 1000, none⟩] =
      (.rejectedLowFee, [⟨1, 7, 1000, none⟩]) ∧
    admitTx 25 184320 10 true false ⟨1, 7, 1250, none⟩ [⟨1, 7, 1000, none⟩] =
      (.queued, [⟨1, 7, 1250, none⟩]) := by
  constructor
  · exact (C4_queue_replacement 25 184320 10 true false
      ⟨1, 7, 1249, none⟩ ⟨1, 7, 1000, none⟩ [⟨1, 7, 1000, none⟩]
      (by decide)).1 (by decide)
  · have h := (C4_queue_replacement 25 184320 10 true false
      ⟨1, 7, 1250, none⟩ ⟨1, 7, 1000, none⟩ [⟨1, 7, 1000, none⟩]
      (by decide)).2 (by decide) (by decide) rfl (by decide)
    rw [h]
    decide

theorem countKey_cons (a s : Nat) (c : Candidate) (q : List Candidate) :
    countKey a s (c :: q) =
      (if keyMatch a s c then 1 else 0) + countKey a s q := by
  unfold countKey
  rw [List.filter_cons]
  split_ifs with h
  · simp only [List.length_cons]
    omega
  · omega

theorem countKey_le_of_sublist {q1 q2 : List Candidate}
    (h : q1.Sublist q2) (a s : Nat) :
    countKey a s q1 ≤ countKey a s q2 :=
  (h.filter _).length_le

theorem InvQ_of_sublist {q1 q2 : List Candidate} (h : q1.Sublist q2)
    (hq : InvQ q2) : InvQ q1 :=
  fun a s => le_trans (countKey_le_of_sublist h a s) (hq a s)

theorem countKey_perm {q1 q2 : List Candidate} (h : q1.Perm q2)
    (a s : Nat) : countKey a s q1 = countKey a s q2 :=
  (h.filter _).length_eq

theorem insertByFee_perm (tx : Candidate) (q : List Candidate) :
    (insertByFee tx q).Perm (tx :: q) := by
  induction q with
  | nil => exact List.Perm.refl _
  | cons c rest ih =>
    unfold insertByFee
    split_ifs
    · exact List.Perm.refl _
    · exact (ih.cons c).trans (List.Perm.swap tx c rest)

theorem countKey_eraseP (a s : Nat) (q : List Candidate) :
    countKey a s (q.eraseP (keyMatch a s)) +
      (if q.any (keyMatch a s) then 1 else 0) = countKey a s q := by
  induction q with
  | nil => rfl
  | cons c rest ih =>
    rw [List.eraseP_cons, List.any_cons, countKey_cons]
    by_cases hc : keyMatch a s c
    · rw [hc]
      simp only [if_pos rfl, Bool.true_or, if_pos rfl, cond_true]
      omega
    · rw [Bool.not_eq_true] at hc
      rw [hc]
      simp only [cond_false, Bool.false_or, countKey_cons, hc, if_neg
        (by simp : ¬ (false = true))]
      omega

theorem countKey_eq_zero_of_find?_none (a s : Nat) (q : List Candidate)
    (h : q.find? (keyMatch a s) = none) : countKey a s q = 0 := by
  unfold countKey
  rw [List.find?_eq_none] at h
  rw [List.filter_eq_nil_iff.mpr h]
  rfl

theorem any_of_find?_some (a s : Nat) (q : List Candidate)
    (c : Candidate) (h : q.find? (keyMatch a s) = some c) :
    q.any (keyMatch a s) = true := by
  rw [List.any_eq_true]
  exact ⟨c, List.mem_of_find?_eq_some h, List.find?_some h⟩

theorem keyMatch_self_eq (a s : Nat) (tx : Candidate)
    (h : keyMatch a s tx = true) : a = tx.account ∧ s = tx.sequence := by
  unfold keyMatch at h
  rw [Bool.and_eq_true, beq_iff_eq, beq_iff_eq] at h
  exact ⟨h.1.symm, h.2.symm⟩

theorem InvQ_insertByFee (tx : Candidate) (q : List Candidate)
    (hq : InvQ q) (h0 : countKey tx.account tx.sequence q = 0) :
    InvQ (insertByFee tx q) := by
  intro a s
  rw [countKey_perm (insertByFee_perm tx q), countKey_cons]
  by_cases hk : keyMatch a s tx = true
  · obtain ⟨ha, hs⟩ := keyMatch_self_eq a s tx hk
    rw [hk, if_pos rfl, ha, hs, h0]
  · rw [Bool.not_eq_true] at hk
    rw [hk]
    simp only [if_neg (by simp : ¬ (false = true)), Nat.zero_add]
    exact hq a s

theorem InvQ_holdStep (maxSize : Nat) (canBeHeld : Bool) (tx : Candidate)
    (q : List Candidate) (hq : InvQ q)
    (h0 : countKey tx.account tx.sequence q = 0) :
    InvQ (holdStep maxSize canBeHeld tx q).2 := by
  unfold holdStep
  split_ifs with hheld hsize
  · exact InvQ_insertByFee tx q hq h0
  · cases hlast : q.getLast? with
    | some lowest =>
      show InvQ (if lowest.feeLevel < tx.feeLevel
          then ((.queued, insertByFee tx q.dropLast) :
            AdmitResult × List Candidate)
          else (.rejectedLowFee, q)).2
      split_ifs with hfee
      · refine InvQ_insertByFee tx q.dropLast
          (InvQ_of_sublist (List.dropLast_sublist q) hq) ?_
        have := countKey_le_of_sublist (List.dropLast_sublist q)
          tx.account tx.sequence
        omega
      · exact hq
    | none => exact hq
  · exact hq

theorem InvQ_applyStep (required maxSize : Nat)
    (canBeHeld applySucceeds : Bool) (tx : Candidate)
    (q : List Candidate) (hq : InvQ q)
    (h0 : countKey tx.account tx.sequence q = 0) :
    InvQ (applyStep required maxSize canBeHeld applySucceeds tx q).2 := by
  unfold applyStep
  split_ifs
  · exact hq
  · exact InvQ_holdStep maxSize canBeHeld tx q hq h0
  · exact InvQ_holdStep maxSize canBeHeld tx q hq h0

theorem drain_sublist (required : Nat) (applies : Candidate → Bool)
    (q : List Candidate) : (drain required applies q).Sublist q := by
  induction q with
  | nil => exact List.Sublist.refl _
  | cons c rest ih =>
    unfold drain
    split_ifs
    · exact List.Sublist.refl _
    · exact ih.cons c
    · exact ih.cons₂ c

theorem sweep_sublist (newMaxSize validatedSeq : Nat)
    (q : List Candidate) : (sweep newMaxSize validatedSeq q).Sublist q :=
  (List.filter_sublist _).trans (List.take_sublist _ _)

/-- C8: the admission queue holds at most one transaction per
(account, sequence): the empty queue satisfies the bound, and every
admitTx, drain, and new-ledger sweep preserves it. -/
theorem C8_at_most_one_per_key (retryPct required maxSize newMaxSize
    validatedSeq : Nat) (canBeHeld applySucceeds : Bool)
    (applies : Candidate → Bool) (tx : Candidate) (q : List Candidate)
    (hq : InvQ q) :
    InvQ (admitTx retryPct required maxSize canBeHeld applySucceeds
      tx q).2 ∧
    InvQ (drain required applies q) ∧
    InvQ (sweep newMaxSize validatedSeq q) ∧
    InvQ [] := by
  refine ⟨?_, InvQ_of_sublist (drain_sublist required applies q) hq,
    InvQ_of_sublist (sweep_sublist newMaxSize validatedSeq q) hq,
    fun a s => by unfold countKey; simp⟩
  unfold admitTx
  cases hfind : q.find? (keyMatch tx.account tx.sequence) with
  | some existing =>
    show InvQ (if tx.feeLevel <
        replaceRequiredLevel existing.feeLevel retryPct
      then ((.rejectedLowFee, q) : AdmitResult × List Candidate)
      else applyStep required maxSize canBeHeld applySucceeds tx
        (q.eraseP (keyMatch tx.account tx.sequence))).2
    split_ifs
    · exact hq
    · have hany := any_of_find?_some tx.account tx.sequence q
        existing hfind
      have herase := countKey_eraseP tx.account tx.sequence q
      rw [hany, if_pos rfl] at herase
      have hle := hq tx.account tx.sequence
      refine InvQ_applyStep required maxSize canBeHeld applySucceeds tx _
        (InvQ_of_sublist (List.eraseP_sublist q) hq) ?_
      omega
  | none =>
    show InvQ (applyStep required maxSize canBeHeld applySucceeds tx q).2
    exact InvQ_applyStep required maxSize canBeHeld applySucceeds tx q hq
      (countKey_eq_zero_of_find?_none tx.account tx.sequence q hfind)

/-- Witness for C8: adding the replacement from the C4 scenario leaves
at most one entry for account 1, sequence 7. -/
theorem C8_at_most_one_per_key_witness :
    countKey 1 7 (admitTx 25 184320 10 true false ⟨1, 7, 1250, none⟩
      [⟨1, 7, 1000, none⟩]).2 ≤ 1 :=
  (C8_at_most_one_per_key 25 184320 10 10 5 true false (fun _ => true)
    ⟨1, 7, 1250, none⟩ [⟨1, 7, 1000, none⟩]
    (fun a s => le_trans (List.length_filter_le _ _) (by simp))).1 1 7

end Rippled

